import Mathlib

/-!
Verification development for the astropix-python wrapper.

Shallow embedding of the configuration register model, the scan-chain bit
serializer and the per-pixel bit algebra of `src/modules/asic.py`, and of the
run-control methods of `src/astropix.py`.  Python dicts of `[width, value]`
pairs become association lists of `Field` records; the mutable `Asic` /
`astropixRun` objects become explicit state records, with `Option` / `Except`
results standing for Python exceptions.
-/

namespace Astropix

/-- One configuration field, stored in the YAML-backed dict as a
`[width, value]` pair (the source accesses `values[0]` for the bit width and
`values[1]` for the value). -/
structure Field where
  width : Nat
  value : Nat
deriving DecidableEq

/-- A named block of fields in insertion order, such as `digitalconfig`,
`biasconfig`, `idacs`, `vdacs` or `recconfig`. -/
abbrev Block := List (String × Field)

/-- The full `asic_config` dict: named blocks in insertion order. -/
abbrev ChipConfig := List (String × Block)

/-- MSB-first bit list of `value`, `n` bits long (bit `n-1` down to bit `0`);
the bit content of `BitArray(uint=value, length=n)`. -/
def natToBits (value : Nat) : Nat → List Bool
  | 0 => []
  | n + 1 => value.testBit n :: natToBits value n

/-- Decode an MSB-first bit list back to the unsigned integer it encodes
(`BitArray.uint`). -/
def bitsToNat (bs : List Bool) : Nat :=
  bs.foldl (fun acc b => 2 * acc + b.toNat) 0

/-- Embedding of `Asic.__int2nbit`: `BitArray(uint=value, length=nbits)`.
The bitstring library raises `CreationError` (a `ValueError` subclass) when
`nbits = 0` or when `value` does not fit in `nbits` bits; the source catches
`ValueError` and falls through to an implicit `None` return, which we model
as `none`. -/
def int2nbit (value nbits : Nat) : Option (List Bool) :=
  if 0 < nbits ∧ value < 2 ^ nbits then some (natToBits value nbits) else none

/-- A field is valid when its value fits its declared positive width. -/
def FieldValid (f : Field) : Prop :=
  0 < f.width ∧ f.value < 2 ^ f.width

instance (f : Field) : Decidable (FieldValid f) := by
  unfold FieldValid; infer_instance

/-- A config is valid when every field of every block is valid. -/
def ConfigValid (cfg : ChipConfig) : Prop :=
  ∀ blk ∈ cfg, ∀ fld ∈ blk.2, FieldValid fld.2

instance (cfg : ChipConfig) : Decidable (ConfigValid cfg) := by
  unfold ConfigValid; infer_instance

/-- Width sum of one block. -/
def blockWidth (blk : Block) : Nat :=
  (blk.map fun fld => fld.2.width).sum

/-- Width sum over all fields of all blocks. -/
def totalWidth (cfg : ChipConfig) : Nat :=
  (cfg.map fun blk => blockWidth blk.2).sum

/-- Inner loop of `Asic.gen_asic_vector`: append the encoding of every field
of one block in insertion order
(`for values in self.asic_config[key].values(): bitvector.append(...)`).
Appending the `None` produced by an out-of-range field would raise in Python,
modelled by `none`. -/
def serializeBlock : Block → Option (List Bool)
  | [] => some []
  | fld :: rest => do
      let bits ← int2nbit fld.2.value fld.2.width
      let tail ← serializeBlock rest
      pure (bits ++ tail)

/-- Outer loop of `Asic.gen_asic_vector`: walk the blocks in insertion order
(`for key in self.asic_config`). -/
def serializeBlocks : ChipConfig → Option (List Bool)
  | [] => some []
  | blk :: rest => do
      let bits ← serializeBlock blk.2
      let tail ← serializeBlocks rest
      pure (bits ++ tail)

/-- Embedding of `Asic.gen_asic_vector(msbfirst)`: concatenate every field of
every block, then reverse the whole vector when `msbfirst` is false
(`if not msbfirst: bitvector.reverse()`). -/
def gen_asic_vector (cfg : ChipConfig) (msbfirst : Bool) : Option (List Bool) :=
  (serializeBlocks cfg).map fun bitvector =>
    if msbfirst then bitvector else bitvector.reverse

theorem natToBits_length (value : Nat) : ∀ n, (natToBits value n).length = n := by
  intro n
  induction n with
  | zero => rfl
  | succ n ih => simp [natToBits, ih]

theorem foldl_natToBits (v : Nat) :
    ∀ (n : Nat) (acc : Nat),
      (natToBits v n).foldl (fun a b => 2 * a + b.toNat) acc
        = acc * 2 ^ n + v % 2 ^ n := by
  intro n
  induction n with
  | zero => intro acc; simp [natToBits, bitsToNat, Nat.mod_one]
  | succ n ih =>
    intro acc
    have hb : (v.testBit n).toNat = v / 2 ^ n % 2 := by
      rw [Nat.testBit_to_div_mod]
      rcases Nat.mod_two_eq_zero_or_one (v / 2 ^ n) with h | h <;> simp [h]
    have hm : v % 2 ^ (n + 1) = v % 2 ^ n + 2 ^ n * (v / 2 ^ n % 2) := by
      rw [Nat.pow_succ]
      exact Nat.mod_mul
    simp only [natToBits, List.foldl_cons, ih]
    rw [hb, hm, Nat.pow_succ]
    ring

theorem bitsToNat_natToBits (v n : Nat) (h : v < 2 ^ n) :
    bitsToNat (natToBits v n) = v := by
  unfold bitsToNat
  rw [foldl_natToBits, Nat.zero_mul, Nat.zero_add, Nat.mod_eq_of_lt h]

theorem serializeBlock_eq (blk : Block) (h : ∀ fld ∈ blk, FieldValid fld.2) :
    ∃ bs, serializeBlock blk = some bs ∧ bs.length = blockWidth blk := by
  induction blk with
  | nil => exact ⟨[], rfl, rfl⟩
  | cons fld rest ih =>
    obtain ⟨bs, hbs, hlen⟩ := ih fun f hf => h f (List.mem_cons_of_mem _ hf)
    have hv : FieldValid fld.2 := h fld (List.mem_cons_self _ _)
    have henc : int2nbit fld.2.value fld.2.width
        = some (natToBits fld.2.value fld.2.width) := by
      unfold int2nbit
      rw [if_pos (And.intro hv.1 hv.2)]
    refine ⟨natToBits fld.2.value fld.2.width ++ bs, ?_, ?_⟩
    · simp [serializeBlock, henc, hbs]
    · simp [List.length_append, natToBits_length, hlen, blockWidth]

theorem serializeBlocks_eq (cfg : ChipConfig) (h : ConfigValid cfg) :
    ∃ bs, serializeBlocks cfg = some bs ∧ bs.length = totalWidth cfg := by
  induction cfg with
  | nil => exact ⟨[], rfl, rfl⟩
  | cons blk rest ih =>
    obtain ⟨bs, hbs, hlen⟩ := ih fun b hb f hf => h b (List.mem_cons_of_mem _ hb) f hf
    obtain ⟨hd, hhd, hhdlen⟩ :=
      serializeBlock_eq blk.2 (h blk (List.mem_cons_self _ _))
    refine ⟨hd ++ bs, ?_, ?_⟩
    · simp [serializeBlocks, hhd, hbs]
    · simp [List.length_append, hhdlen, hlen, totalWidth]

/-- C1: for every ChipConfig whose field values fit their declared widths,
`gen_asic_vector` returns exactly one bit sequence, of length equal to the sum
of all field widths over all fields of all blocks, for both settings of
`msbfirst` and independently of the field values. -/
theorem gen_asic_vector_total_length (cfg : ChipConfig) (hv : ConfigValid cfg)
    (msbfirst : Bool) :
    ∃ bitvector, gen_asic_vector cfg msbfirst = some bitvector ∧
      bitvector.length = totalWidth cfg := by
  obtain ⟨bs, hbs, hlen⟩ := serializeBlocks_eq cfg hv
  cases msbfirst with
  | true => exact ⟨bs, by simp [gen_asic_vector, hbs], hlen⟩
  | false =>
    exact ⟨bs.reverse, by simp [gen_asic_vector, hbs], by simpa using hlen⟩

/-- The default column word of `recconfig`,
`0b001_11111_11111_11111_11111_11111_11111_11110` (bits 1..35 set, bit 0 and
the two control bits 36, 37 clear), equal to `2 ^ 36 - 2`. -/
def colDefault : Nat := 2 ^ 36 - 2

/-- A small concrete configuration used by witnesses. -/
def cfgW : ChipConfig :=
  [("biasconfig", [("ibias", ⟨3, 5⟩)]),
   ("recconfig", [("col0", ⟨38, colDefault⟩)])]

/-- Witness for C1 at a concrete valid configuration. -/
theorem gen_asic_vector_total_length_witness :
    ∃ bitvector, gen_asic_vector cfgW false = some bitvector ∧
      bitvector.length = totalWidth cfgW :=
  gen_asic_vector_total_length cfgW (by decide) false

/-- C2: on every valid ChipConfig the `msbfirst = false` output of
`gen_asic_vector` is the whole-vector bit reversal of the `msbfirst = true`
output. -/
theorem gen_asic_vector_msb_reversal (cfg : ChipConfig) (hv : ConfigValid cfg) :
    ∃ bvT bvF, gen_asic_vector cfg true = some bvT ∧
      gen_asic_vector cfg false = some bvF ∧ bvF = bvT.reverse := by
  obtain ⟨bs, hbs, -⟩ := serializeBlocks_eq cfg hv
  exact ⟨bs, bs.reverse, by simp [gen_asic_vector, hbs],
    by simp [gen_asic_vector, hbs], rfl⟩

/-- Witness for C2 at a concrete valid configuration. -/
theorem gen_asic_vector_msb_reversal_witness :
    ∃ bvT bvF, gen_asic_vector cfgW true = some bvT ∧
      gen_asic_vector cfgW false = some bvF ∧ bvF = bvT.reverse :=
  gen_asic_vector_msb_reversal cfgW (by decide)

/-- C7: for `0 ≤ value < 2 ^ width` (with a positive declared width, as every
field of the data model has), `__int2nbit` yields a bit array of length
`width` that decodes back to `value`; any `value ≥ 2 ^ width` fails with a
defined error (`none`), never a silent truncation. -/
theorem int2nbit_roundtrip (value width : Nat) (hw : 0 < width) :
    (value < 2 ^ width →
      ∃ bits, int2nbit value width = some bits ∧ bits.length = width ∧
        bitsToNat bits = value) ∧
    (2 ^ width ≤ value → int2nbit value width = none) := by
  constructor
  · intro hv
    refine ⟨natToBits value width, ?_, natToBits_length value width,
      bitsToNat_natToBits value width hv⟩
    unfold int2nbit
    rw [if_pos ⟨hw, hv⟩]
  · intro hv
    unfold int2nbit
    rw [if_neg]
    rintro ⟨-, hlt⟩
    omega

/-- Witness for C7 at `value = 5, width = 3` and the failing `value = 8`. -/
theorem int2nbit_roundtrip_witness :
    (∃ bits, int2nbit 5 3 = some bits ∧ bits.length = 3 ∧
      bitsToNat bits = 5) ∧ int2nbit 8 3 = none :=
  ⟨(int2nbit_roundtrip 5 3 (by decide)).1 (by decide),
   (int2nbit_roundtrip 8 3 (by decide)).2 (by decide)⟩

/-! Pixel-matrix bit algebra over the `recconfig` block.  Each column word is
the `value` component of one `recconfig` field; the operations below only
touch that component, so the state keeps a plain list of column words, index
`i` standing for the dict key `col{i}`.  A `none` / `.error` result models a
Python exception (`KeyError` on a missing key, `TypeError` on subscripting
the result of a failed `.get`). -/

/-- Mask `0b011_11111_11111_11111_11111_11111_11111_11111` (`= 2 ^ 37 - 1`)
clearing the analog-mux-select bit 37 in `enable_ampout_col`. -/
def muxClearMask : Nat := 2 ^ 37 - 1

/-- Mask `0b100_00000_00000_00000_00000_00000_00000_00000` (`= 2 ^ 37`)
setting the analog-mux-select bit 37. -/
def muxSetMask : Nat := 2 ^ 37

/-- Mask `0b010_00000_00000_00000_00000_00000_00000_00000` (`= 2 ^ 36`)
setting the column-injection-enable bit 36. -/
def injColSetMask : Nat := 2 ^ 36

/-- Mask `0b101_11111_11111_11111_11111_11111_11111_11111`
(`= 2 ^ 38 - 1 - 2 ^ 36`) clearing the column-injection-enable bit 36. -/
def injColClearMask : Nat := 2 ^ 38 - 1 - 2 ^ 36

/-- Mask `0b111_11111_11111_11111_11111_11111_11111_11110` (`= 2 ^ 38 - 2`)
clearing the row-injection bit 0. -/
def injRowClearMask : Nat := 2 ^ 38 - 2

/-- State of the `Asic` object: matrix geometry and the `recconfig` column
words. -/
structure AsicState where
  num_rows : Nat
  num_cols : Nat
  recconfig : List Nat
deriving DecidableEq

/-- The Python expression `w & ~m` on non-negative ints clears exactly the bits of `m`;
over the naturals this equals `w ^^^ (w &&& m)`. -/
def pyClear (w m : Nat) : Nat := w ^^^ (w &&& m)

/-- Embedding of `Asic.enable_pixel`: guarded by `row < num_rows and
col < num_cols`, it clears bit `row + 1`
(`... .get(key, default)[1] & ~(2 << row)`) of the column word. -/
def enable_pixel (s : AsicState) (col row : Nat) : Option AsicState :=
  if row < s.num_rows ∧ col < s.num_cols then
    match s.recconfig[col]? with
    | some w => some ⟨s.num_rows, s.num_cols,
        s.recconfig.set col (pyClear w (2 <<< row))⟩
    | none => none
  else some s

/-- Embedding of `Asic.disable_pixel`: guarded identically, it sets bit
`row + 1` (`... | (2 << row)`) of the column word. -/
def disable_pixel (s : AsicState) (col row : Nat) : Option AsicState :=
  if row < s.num_rows ∧ col < s.num_cols then
    match s.recconfig[col]? with
    | some w => some ⟨s.num_rows, s.num_cols,
        s.recconfig.set col (w ||| (2 <<< row))⟩
    | none => none
  else some s

/-- Embedding of `Asic.enable_inj_row`: guarded by `row < num_rows` only, it
sets bit 0 of column word number `row` (the source indexes `col{row}`). -/
def enable_inj_row (s : AsicState) (row : Nat) : Option AsicState :=
  if row < s.num_rows then
    match s.recconfig[row]? with
    | some w => some ⟨s.num_rows, s.num_cols, s.recconfig.set row (w ||| 1)⟩
    | none => none
  else some s

/-- Embedding of `Asic.disable_inj_row`: clears bit 0 of column word number
`row`. -/
def disable_inj_row (s : AsicState) (row : Nat) : Option AsicState :=
  if row < s.num_rows then
    match s.recconfig[row]? with
    | some w => some ⟨s.num_rows, s.num_cols,
        s.recconfig.set row (w &&& injRowClearMask)⟩
    | none => none
  else some s

/-- Embedding of `Asic.enable_inj_col`: guarded by `col < num_cols`, it sets
bit 36 of the column word. -/
def enable_inj_col (s : AsicState) (col : Nat) : Option AsicState :=
  if col < s.num_cols then
    match s.recconfig[col]? with
    | some w => some ⟨s.num_rows, s.num_cols,
        s.recconfig.set col (w ||| injColSetMask)⟩
    | none => none
  else some s

/-- Embedding of `Asic.disable_inj_col`: clears bit 36 of the column word. -/
def disable_inj_col (s : AsicState) (col : Nat) : Option AsicState :=
  if col < s.num_cols then
    match s.recconfig[col]? with
    | some w => some ⟨s.num_rows, s.num_cols,
        s.recconfig.set col (w &&& injColClearMask)⟩
    | none => none
  else some s

/-- The clearing loop of `Asic.enable_ampout_col`
(`for i in range(self.num_cols): ... & 0b011_1...1`): mask the mux bit off
the first `n` column words. -/
def clearMux : List Nat → Nat → List Nat
  | [], _ => []
  | ws, 0 => ws
  | w :: ws, n + 1 => (w &&& muxClearMask) :: clearMux ws n

/-- Embedding of `Asic.enable_ampout_col`: no bounds check in the source; the
loop clears the mux bit of every column word, then bit 37 of word `col` is
set.  A missing key raises `KeyError`, modelled by `none`. -/
def enable_ampout_col (s : AsicState) (col : Nat) : Option AsicState :=
  if s.num_cols ≤ s.recconfig.length then
    match (clearMux s.recconfig s.num_cols)[col]? with
    | some w => some ⟨s.num_rows, s.num_cols,
        (clearMux s.recconfig s.num_cols).set col (w ||| muxSetMask)⟩
    | none => none
  else none

/-- Embedding of `Asic.get_pixel`: guarded by `row < num_rows` only.  Inside
the guard, `recconfig.get(key)` with no default yields `None` for a
missing key and `None[1]` raises `TypeError` (`.error ()`); otherwise the
method returns `False` when bit `row + 1` is set and `True` when clear.  The
method performs no assignment, and the returned state is always the input
state.  Falling off the guard returns Python `None`, embedded as
`.ok (none, s)`. -/
def get_pixel (s : AsicState) (col row : Nat) :
    Except Unit (Option Bool × AsicState) :=
  if row < s.num_rows then
    match s.recconfig[col]? with
    | some w =>
        if w &&& (1 <<< (row + 1)) ≠ 0 then .ok (some false, s)
        else .ok (some true, s)
    | none => .error ()
  else .ok (none, s)

/-- Embedding of `Asic.reset_recconfig`: set every column word to the default
pattern. -/
def reset_recconfig (s : AsicState) : AsicState :=
  ⟨s.num_rows, s.num_cols, s.recconfig.map fun _ => colDefault⟩

theorem testBit_pyClear (w m i : Nat) :
    (pyClear w m).testBit i = (w.testBit i && !(m.testBit i)) := by
  unfold pyClear
  rw [Nat.testBit_xor, Nat.testBit_and]
  cases w.testBit i <;> cases m.testBit i <;> rfl

theorem muxClearMask_testBit (i : Nat) :
    muxClearMask.testBit i = decide (i < 37) := by
  unfold muxClearMask
  exact Nat.testBit_two_pow_sub_one 37 i

theorem muxSetMask_testBit (i : Nat) :
    muxSetMask.testBit i = decide (37 = i) := by
  unfold muxSetMask
  exact Nat.testBit_two_pow

theorem land_land_self (a m : Nat) : a &&& m &&& m = a &&& m := by
  apply Nat.eq_of_testBit_eq
  intro i
  simp [Nat.testBit_and, Bool.and_assoc]

theorem clear_or_mux_land (w : Nat) :
    ((w &&& muxClearMask) ||| muxSetMask) &&& muxClearMask
      = w &&& muxClearMask := by
  apply Nat.eq_of_testBit_eq
  intro i
  by_cases h : i = 37
  · simp [Nat.testBit_or, Nat.testBit_and, muxClearMask_testBit,
      muxSetMask_testBit, h]
  · simp [Nat.testBit_or, Nat.testBit_and, muxClearMask_testBit,
      muxSetMask_testBit, Ne.symm h, Bool.and_assoc]

theorem clearMux_length (ws : List Nat) :
    ∀ n, (clearMux ws n).length = ws.length := by
  induction ws with
  | nil => intro n; cases n <;> rfl
  | cons w ws ih =>
    intro n
    cases n with
    | zero => rfl
    | succ n => simp [clearMux, ih]

theorem clearMux_getElem? (ws : List Nat) :
    ∀ n j, (clearMux ws n)[j]? =
      if j < n then ws[j]?.map (· &&& muxClearMask) else ws[j]? := by
  induction ws with
  | nil =>
    intro n j
    cases n <;> simp [clearMux]
  | cons w ws ih =>
    intro n j
    cases n with
    | zero => simp [clearMux]
    | succ n =>
      cases j with
      | zero => simp [clearMux]
      | succ j => simpa [clearMux, Nat.succ_lt_succ_iff] using ih n j

theorem ampout_run (rows cols : Nat) (rec : List Nat) (col : Nat)
    (hle : cols ≤ rec.length) (w : Nat)
    (hw2 : (clearMux rec cols)[col]? = some w) :
    enable_ampout_col ⟨rows, cols, rec⟩ col
      = some ⟨rows, cols, (clearMux rec cols).set col (w ||| muxSetMask)⟩ := by
  unfold enable_ampout_col
  rw [if_pos hle, hw2]

theorem ampout_core (s : AsicState) (col : Nat)
    (hlen : s.recconfig.length = s.num_cols) (hcol : col < s.num_cols) :
    ∃ t, enable_ampout_col s col = some t ∧
      t.num_rows = s.num_rows ∧ t.num_cols = s.num_cols ∧
      t.recconfig.length = s.recconfig.length ∧
      (∀ j, j < t.recconfig.length →
        ((t.recconfig[j]?.getD 0).testBit 37 = true ↔ j = col)) ∧
      enable_ampout_col t col = some t := by
  have hcllen : (clearMux s.recconfig s.num_cols).length = s.recconfig.length :=
    clearMux_length s.recconfig s.num_cols
  have hcolcl : col < (clearMux s.recconfig s.num_cols).length := by omega
  have hw : (clearMux s.recconfig s.num_cols)[col]?
      = some (clearMux s.recconfig s.num_cols)[col] :=
    List.getElem?_eq_getElem hcolcl
  have hwval : (clearMux s.recconfig s.num_cols)[col]
      = (s.recconfig[col]?.getD 0) &&& muxClearMask := by
    have h2 := clearMux_getElem? s.recconfig s.num_cols col
    rw [if_pos hcol] at h2
    have hrc : col < s.recconfig.length := by omega
    rw [List.getElem?_eq_getElem hrc] at h2
    rw [hw] at h2
    simp only [Option.map_some'] at h2
    rw [Option.some_inj] at h2
    rw [h2, List.getElem?_eq_getElem hrc]
    rfl
  have hsetlen : ((clearMux s.recconfig s.num_cols).set col
      ((clearMux s.recconfig s.num_cols)[col] ||| muxSetMask)).length
      = s.recconfig.length := by
    rw [List.length_set]; omega
  have hrun : enable_ampout_col s col = some ⟨s.num_rows, s.num_cols,
      (clearMux s.recconfig s.num_cols).set col
        ((clearMux s.recconfig s.num_cols)[col] ||| muxSetMask)⟩ :=
    ampout_run s.num_rows s.num_cols s.recconfig col (le_of_eq hlen.symm) _ hw
  refine ⟨⟨s.num_rows, s.num_cols,
    (clearMux s.recconfig s.num_cols).set col
      ((clearMux s.recconfig s.num_cols)[col] ||| muxSetMask)⟩,
    hrun, rfl, rfl, hsetlen, ?_, ?_⟩
  · intro j hj
    have hjlen : j < s.recconfig.length := by
      rw [show (⟨s.num_rows, s.num_cols,
        (clearMux s.recconfig s.num_cols).set col
          ((clearMux s.recconfig s.num_cols)[col] ||| muxSetMask)⟩ : AsicState).recconfig
        = (clearMux s.recconfig s.num_cols).set col
          ((clearMux s.recconfig s.num_cols)[col] ||| muxSetMask) from rfl,
        hsetlen] at hj
      exact hj
    show ((((clearMux s.recconfig s.num_cols).set col
      ((clearMux s.recconfig s.num_cols)[col] ||| muxSetMask))[j]?.getD 0).testBit 37
        = true) ↔ j = col
    by_cases hjc : j = col
    · subst hjc
      rw [List.getElem?_set_self (by omega)]
      simp [Nat.testBit_or, muxSetMask_testBit]
    · rw [List.getElem?_set_ne (fun h => hjc h.symm)]
      have h2 := clearMux_getElem? s.recconfig s.num_cols j
      rw [if_pos (by omega : j < s.num_cols)] at h2
      rw [List.getElem?_eq_getElem (by omega : j < s.recconfig.length)] at h2
      rw [h2]
      simp [Nat.testBit_and, muxClearMask_testBit, hjc]
  · have hfix : clearMux ((clearMux s.recconfig s.num_cols).set col
        ((clearMux s.recconfig s.num_cols)[col] ||| muxSetMask)) s.num_cols
        = clearMux s.recconfig s.num_cols := by
      apply List.ext_getElem?
      intro j
      rw [clearMux_getElem?]
      by_cases hjn : j < s.num_cols
      · rw [if_pos hjn]
        by_cases hjc : j = col
        · subst hjc
          rw [List.getElem?_set_self (by omega), hw]
          simp only [Option.map_some']
          rw [hwval, clear_or_mux_land]
        · rw [List.getElem?_set_ne (fun h => hjc h.symm)]
          have h2 := clearMux_getElem? s.recconfig s.num_cols j
          rw [if_pos hjn] at h2
          rw [h2]
          rw [List.getElem?_eq_getElem (by omega : j < s.recconfig.length)]
          simp only [Option.map_some']
          rw [land_land_self]
      · rw [if_neg hjn]
        rw [List.getElem?_eq_none (by rw [hsetlen]; omega),
          List.getElem?_eq_none
            (show (clearMux s.recconfig s.num_cols).length ≤ j by omega)]
    have hw2 : (clearMux ((clearMux s.recconfig s.num_cols).set col
        ((clearMux s.recconfig s.num_cols)[col] ||| muxSetMask)) s.num_cols)[col]?
        = some (clearMux s.recconfig s.num_cols)[col] := by
      rw [hfix]; exact hw
    have h1 := ampout_run s.num_rows s.num_cols
      ((clearMux s.recconfig s.num_cols).set col
        ((clearMux s.recconfig s.num_cols)[col] ||| muxSetMask)) col
      (by rw [List.length_set]; omega) _ hw2
    rw [hfix] at h1
    exact h1


/-- C3: for any column index addressing an existing column word, after
`enable_ampout_col(col)` at most one column word of `recconfig` has its
mux-select bit 37 set, namely `col`; the operation is idempotent, and
calling it for one column and then another (such as 5 then 9) leaves only
the mux bit of the second column set. -/
theorem enable_ampout_col_spec (s : AsicState) (col : Nat)
    (hlen : s.recconfig.length = s.num_cols) (hcol : col < s.num_cols) :
    ∃ t, enable_ampout_col s col = some t ∧
      (∀ j, j < t.recconfig.length →
        ((t.recconfig[j]?.getD 0).testBit 37 = true ↔ j = col)) ∧
      enable_ampout_col t col = some t ∧
      ∀ col2, col2 < s.num_cols →
        ∃ u, enable_ampout_col t col2 = some u ∧
          ∀ j, j < u.recconfig.length →
            ((u.recconfig[j]?.getD 0).testBit 37 = true ↔ j = col2) := by
  obtain ⟨t, hrun, hrows, hcols, htlen, hbits, hidem⟩ := ampout_core s col hlen hcol
  refine ⟨t, hrun, hbits, hidem, ?_⟩
  intro col2 hcol2
  obtain ⟨u, hrun2, -, -, -, hbits2, -⟩ :=
    ampout_core t col2 (by omega) (by omega)
  exact ⟨u, hrun2, hbits2⟩

/-- A concrete 35 by 35 state with every column word at the default pattern,
used by witnesses. -/
def sW : AsicState := ⟨35, 35, List.replicate 35 colDefault⟩

/-- Witness for C3 at the concrete state `sW` and column 3. -/
theorem enable_ampout_col_spec_witness :
    ∃ t, enable_ampout_col sW 3 = some t ∧
      (∀ j, j < t.recconfig.length →
        ((t.recconfig[j]?.getD 0).testBit 37 = true ↔ j = 3)) ∧
      enable_ampout_col t 3 = some t ∧
      ∀ col2, col2 < sW.num_cols →
        ∃ u, enable_ampout_col t col2 = some u ∧
          ∀ j, j < u.recconfig.length →
            ((u.recconfig[j]?.getD 0).testBit 37 = true ↔ j = col2) :=
  enable_ampout_col_spec sW 3 (by decide) (by decide)

theorem two_shiftLeft (row : Nat) : 2 <<< row = 2 ^ (row + 1) := by
  rw [Nat.shiftLeft_eq, Nat.pow_succ]
  ring

theorem one_shiftLeft (k : Nat) : 1 <<< k = 2 ^ k := by
  rw [Nat.shiftLeft_eq, Nat.one_mul]

theorem pyClear_land (w k : Nat) : pyClear w (2 ^ k) &&& 2 ^ k = 0 := by
  apply Nat.eq_of_testBit_eq
  intro i
  simp only [Nat.testBit_and, testBit_pyClear, Nat.testBit_two_pow,
    Nat.zero_testBit]
  by_cases h : k = i <;> simp [h]

theorem lor_land_ne_zero (w k : Nat) : (w ||| 2 ^ k) &&& 2 ^ k ≠ 0 := by
  intro h0
  have h1 : ((w ||| 2 ^ k) &&& 2 ^ k).testBit k = true := by
    simp [Nat.testBit_and, Nat.testBit_or, Nat.testBit_two_pow]
  rw [h0, Nat.zero_testBit] at h1
  simp at h1

theorem pyClear_lor_of_testBit (w k : Nat) (h : w.testBit k = true) :
    pyClear w (2 ^ k) ||| 2 ^ k = w := by
  apply Nat.eq_of_testBit_eq
  intro i
  simp only [Nat.testBit_or, testBit_pyClear, Nat.testBit_two_pow]
  by_cases hik : k = i
  · subst hik
    simp [h]
  · simp [hik]

theorem get_pixel_run_some (rows cols : Nat) (rec : List Nat) (col row : Nat)
    (hrow : row < rows) (w : Nat) (hw : rec[col]? = some w) :
    get_pixel ⟨rows, cols, rec⟩ col row
      = if w &&& 1 <<< (row + 1) ≠ 0 then .ok (some false, ⟨rows, cols, rec⟩)
        else .ok (some true, ⟨rows, cols, rec⟩) := by
  unfold get_pixel
  rw [if_pos hrow, hw]

theorem lt_length_of_getElem? {α : Type _} {l : List α} {i : Nat} {a : α}
    (h : l[i]? = some a) : i < l.length := by
  by_contra hn
  rw [List.getElem?_eq_none (by omega)] at h
  cases h

theorem set_of_getElem? {α : Type _} {l : List α} {i : Nat} {a : α}
    (h : l[i]? = some a) : l.set i a = l := by
  induction l generalizing i with
  | nil => cases h
  | cons b l ih =>
    cases i with
    | zero =>
      simp only [List.getElem?_cons_zero, Option.some_inj] at h
      rw [List.set_cons_zero, h]
    | succ i =>
      simp only [List.getElem?_cons_succ] at h
      rw [List.set_cons_succ, ih h]

/-- A concrete state in which a column word has its pixel-0 bit already
cleared (the pixel is already enabled): the starting point of the C4
counterexample. -/
def s4cex : AsicState := ⟨35, 35, List.replicate 35 0⟩

/-- Counterexample for C4: from a column word whose pixel bit is already
clear, `enable_pixel(0,0)` then `disable_pixel(0,0)` does not restore the
column word — it sets bit 1, leaving the word 2 instead of 0. -/
theorem enable_disable_pixel_cex :
    (enable_pixel s4cex 0 0).bind (fun s1 => disable_pixel s1 0 0)
      = some ⟨35, 35, (List.replicate 35 0).set 0 2⟩ ∧
    (⟨35, 35, (List.replicate 35 0).set 0 2⟩ : AsicState) ≠ s4cex := by
  exact ⟨rfl, by decide⟩

/-- C4 (amended): for valid coordinates with the column word present,
`get_pixel` returns true immediately after `enable_pixel` and false
immediately after `disable_pixel`; and provided the pixel was disabled
beforehand (bit `row + 1` of the column word set, as in the default
pattern), `enable_pixel` followed by `disable_pixel` restores the column
word to its value before the `enable_pixel` call. -/
theorem enable_then_disable_pixel_spec (s : AsicState) (col row : Nat)
    (hrow : row < s.num_rows) (hcol : col < s.num_cols)
    (w : Nat) (hw : s.recconfig[col]? = some w) :
    ∃ s1 s2, enable_pixel s col row = some s1 ∧
      disable_pixel s1 col row = some s2 ∧
      get_pixel s1 col row = .ok (some true, s1) ∧
      get_pixel s2 col row = .ok (some false, s2) ∧
      (w.testBit (row + 1) = true → s2 = s) := by
  have hcl : col < s.recconfig.length := lt_length_of_getElem? hw
  have h1 : enable_pixel s col row = some ⟨s.num_rows, s.num_cols,
      s.recconfig.set col (pyClear w (2 <<< row))⟩ := by
    unfold enable_pixel
    rw [if_pos (And.intro hrow hcol), hw]
  have hs1get : (s.recconfig.set col (pyClear w (2 <<< row)))[col]?
      = some (pyClear w (2 <<< row)) :=
    List.getElem?_set_self hcl
  have h2 : disable_pixel ⟨s.num_rows, s.num_cols,
      s.recconfig.set col (pyClear w (2 <<< row))⟩ col row
      = some ⟨s.num_rows, s.num_cols,
        (s.recconfig.set col (pyClear w (2 <<< row))).set col
          (pyClear w (2 <<< row) ||| 2 <<< row)⟩ := by
    unfold disable_pixel
    rw [if_pos (And.intro hrow hcol), hs1get]
  have hz : pyClear w (2 <<< row) &&& 1 <<< (row + 1) = 0 := by
    rw [two_shiftLeft, one_shiftLeft]
    exact pyClear_land w (row + 1)
  have hnz : (pyClear w (2 <<< row) ||| 2 <<< row) &&& 1 <<< (row + 1) ≠ 0 := by
    rw [two_shiftLeft, one_shiftLeft]
    exact lor_land_ne_zero _ (row + 1)
  have h3 : get_pixel ⟨s.num_rows, s.num_cols,
      s.recconfig.set col (pyClear w (2 <<< row))⟩ col row
      = .ok (some true, ⟨s.num_rows, s.num_cols,
          s.recconfig.set col (pyClear w (2 <<< row))⟩) := by
    rw [get_pixel_run_some s.num_rows s.num_cols _ col row hrow _ hs1get,
      if_neg (fun hne => hne hz)]
  have hs2get : ((s.recconfig.set col (pyClear w (2 <<< row))).set col
      (pyClear w (2 <<< row) ||| 2 <<< row))[col]?
      = some (pyClear w (2 <<< row) ||| 2 <<< row) :=
    List.getElem?_set_self (by rw [List.length_set]; omega)
  have h4 : get_pixel ⟨s.num_rows, s.num_cols,
      (s.recconfig.set col (pyClear w (2 <<< row))).set col
        (pyClear w (2 <<< row) ||| 2 <<< row)⟩ col row
      = .ok (some false, ⟨s.num_rows, s.num_cols,
          (s.recconfig.set col (pyClear w (2 <<< row))).set col
            (pyClear w (2 <<< row) ||| 2 <<< row)⟩) := by
    rw [get_pixel_run_some s.num_rows s.num_cols _ col row hrow _ hs2get,
      if_pos hnz]
  refine ⟨_, _, h1, h2, h3, h4, ?_⟩
  intro hbit
  have hres : pyClear w (2 <<< row) ||| 2 <<< row = w := by
    rw [two_shiftLeft]
    exact pyClear_lor_of_testBit w (row + 1) hbit
  rw [show (s.recconfig.set col (pyClear w (2 <<< row))).set col
      (pyClear w (2 <<< row) ||| 2 <<< row)
      = s.recconfig.set col (pyClear w (2 <<< row) ||| 2 <<< row)
    from List.set_set _ _ _ _, hres, set_of_getElem? hw]

/-- Witness for the amended C4 at `sW` (all column words at the default
pattern, so pixel (2,3) starts disabled), column 2, row 3. -/
theorem enable_then_disable_pixel_spec_witness :
    ∃ s1 s2, enable_pixel sW 2 3 = some s1 ∧
      disable_pixel s1 2 3 = some s2 ∧
      get_pixel s1 2 3 = .ok (some true, s1) ∧
      get_pixel s2 2 3 = .ok (some false, s2) ∧
      (colDefault.testBit (3 + 1) = true → s2 = sW) :=
  enable_then_disable_pixel_spec sW 2 3 (by decide) (by decide) colDefault
    (by decide)

/-- Counterexample for C5: `enable_ampout_col` has no bounds check, so the
out-of-range column 35 on a 35-column matrix raises `KeyError` (`none`)
instead of being a warning-only no-op; and `get_pixel` with an in-range row
but out-of-range column raises `TypeError` (`.error`). -/
theorem out_of_range_raises_cex :
    enable_ampout_col sW 35 = none ∧ get_pixel sW 35 0 = .error () := by
  exact ⟨rfl, rfl⟩

/-- C5 (amended): the operations that do check bounds — `enable_pixel`,
`disable_pixel`, `enable_inj_row`, `disable_inj_row`, `enable_inj_col`,
`disable_inj_col`, and `get_pixel` for an out-of-range row — leave the
configuration bit-for-bit unchanged and raise no exception on out-of-range
indices (though no warning is recorded by the source); `enable_ampout_col`
and the column lookup of `get_pixel` are not guarded and raise. -/
theorem out_of_range_guarded_noop (s : AsicState) (col row : Nat) :
    (s.num_rows ≤ row ∨ s.num_cols ≤ col →
      enable_pixel s col row = some s ∧ disable_pixel s col row = some s) ∧
    (s.num_rows ≤ row →
      enable_inj_row s row = some s ∧ disable_inj_row s row = some s ∧
      get_pixel s col row = .ok (none, s)) ∧
    (s.num_cols ≤ col →
      enable_inj_col s col = some s ∧ disable_inj_col s col = some s) := by
  refine ⟨?_, ?_, ?_⟩
  · intro h
    have hg : ¬(row < s.num_rows ∧ col < s.num_cols) := by
      rcases h with h | h
      · exact fun hc => absurd hc.1 (by omega)
      · exact fun hc => absurd hc.2 (by omega)
    constructor
    · unfold enable_pixel
      rw [if_neg hg]
    · unfold disable_pixel
      rw [if_neg hg]
  · intro h
    refine ⟨?_, ?_, ?_⟩
    · unfold enable_inj_row
      rw [if_neg (by omega)]
    · unfold disable_inj_row
      rw [if_neg (by omega)]
    · unfold get_pixel
      rw [if_neg (by omega)]
  · intro h
    constructor
    · unfold enable_inj_col
      rw [if_neg (by omega)]
    · unfold disable_inj_col
      rw [if_neg (by omega)]

/-- Witness for the amended C5 at the concrete state `sW` and indices 99. -/
theorem out_of_range_guarded_noop_witness :
    (enable_pixel sW 99 99 = some sW ∧ disable_pixel sW 99 99 = some sW) ∧
    (enable_inj_row sW 99 = some sW ∧ disable_inj_row sW 99 = some sW ∧
      get_pixel sW 99 99 = .ok (none, sW)) ∧
    (enable_inj_col sW 99 = some sW ∧ disable_inj_col sW 99 = some sW) :=
  ⟨(out_of_range_guarded_noop sW 99 99).1 (Or.inl (by decide)),
   (out_of_range_guarded_noop sW 99 99).2.1 (by decide),
   (out_of_range_guarded_noop sW 99 99).2.2 (by decide)⟩

/-- C10: for every row at or beyond `num_rows` and any column, `get_pixel`
returns no boolean at all (Python `None`), raises no exception, and leaves
the configuration unchanged: the row bound check guards the entire body and
the function has no else branch. -/
theorem get_pixel_row_out_of_range (s : AsicState) (col row : Nat)
    (h : s.num_rows ≤ row) :
    get_pixel s col row = .ok (none, s) := by
  unfold get_pixel
  rw [if_neg (by omega)]

/-- Witness for C10 at `sW` with `row = num_rows = 35` and a valid column. -/
theorem get_pixel_row_out_of_range_witness :
    get_pixel sW 0 35 = .ok (none, sW) :=
  get_pixel_row_out_of_range sW 0 35 (by decide)

/-! Run-control model of `src/astropix.py` (`astropixRun`).  The state
carries the `_asic_start` flag, the three value-bearing blocks touched by
`update_asic_config`, and a counter of completed `asic_update()` pushes to
hardware. -/

/-- State of the `astropixRun` object for the configuration-update flow. -/
structure AstroState where
  asicStart : Bool
  biasconfig : Block
  idacs : Block
  vdacs : Block
  pushCount : Nat
deriving DecidableEq

/-- Assignment `config[block][key][1] = v`: replace the value of field `key`,
`KeyError` (`none`) when the key is absent. -/
def setFieldVal : Block → String → Nat → Option Block
  | [], _, _ => none
  | fld :: rest, key, v =>
      if fld.1 = key then some ((fld.1, ⟨fld.2.width, v⟩) :: rest)
      else (setFieldVal rest key v).map (fld :: ·)

/-- The `for key in cfg:` loops of `update_asic_config`: write every given
value of every given key into the block, left to right. -/
def applyUpd : Block → List (String × Nat) → Option Block
  | blk, [] => some blk
  | blk, upd :: rest =>
      match setFieldVal blk upd.1 upd.2 with
      | some blk2 => applyUpd blk2 rest
      | none => none

/-- The `if cfg is not None:` guard around each loop. -/
def applyOpt (blk : Block) : Option (List (String × Nat)) → Option Block
  | some upd => applyUpd blk upd
  | none => some blk

/-- Embedding of `astropixRun.asic_update`: re-serialize and push the
configuration to hardware once. -/
def asic_update (s : AstroState) : AstroState :=
  ⟨s.asicStart, s.biasconfig, s.idacs, s.vdacs, s.pushCount + 1⟩

/-- Embedding of `astropixRun.update_asic_config`.  The source guards on
`self._asic_start`, raising `RuntimeError` when false.  Inside the guard it
applies `bias_cfg` and `idac_cfg` when given; the `else` of the final
`if vdac_cfg is not None:` — which logs "got no arguments, nothing to do" —
returns before `self.asic_update()` is reached, so the push happens only
when `vdac_cfg` is not `None`. -/
def update_asic_config (s : AstroState)
    (bias_cfg idac_cfg vdac_cfg : Option (List (String × Nat))) :
    Except String AstroState :=
  if s.asicStart then
    match applyOpt s.biasconfig bias_cfg with
    | none => .error "KeyError"
    | some bias2 =>
      match applyOpt s.idacs idac_cfg with
      | none => .error "KeyError"
      | some idac2 =>
        match vdac_cfg with
        | some upd =>
          match applyUpd s.vdacs upd with
          | none => .error "KeyError"
          | some vdac2 =>
              .ok (asic_update ⟨s.asicStart, bias2, idac2, vdac2, s.pushCount⟩)
        | none => .ok ⟨s.asicStart, bias2, idac2, s.vdacs, s.pushCount⟩
  else .error "Asic has not been initalized"

/-- A concrete initialized run-control state with one field per block. -/
def astroS0 : AstroState :=
  ⟨true, [("ibias", ⟨3, 0⟩)], [("i1", ⟨6, 0⟩)], [("v1", ⟨6, 0⟩)], 0⟩

/-- C6: evaluation at the failing input.  Before initialization the call
raises the not-initialized `RuntimeError` and changes nothing, as claimed;
but after initialization a call carrying only a non-empty `bias_cfg`
writes the bias value and then returns without pushing (`pushCount` stays
0), because the `else` branch of the source is attached to the `vdac_cfg` test
alone; the push happens only when `vdac_cfg` is given. -/
theorem update_asic_config_skips_push :
    update_asic_config ⟨false, astroS0.biasconfig, astroS0.idacs,
        astroS0.vdacs, 0⟩ (some [("ibias", 5)]) none none
      = .error "Asic has not been initalized" ∧
    update_asic_config astroS0 (some [("ibias", 5)]) none none
      = .ok ⟨true, [("ibias", ⟨3, 5⟩)], [("i1", ⟨6, 0⟩)], [("v1", ⟨6, 0⟩)], 0⟩ ∧
    update_asic_config astroS0 none none (some [("v1", 7)])
      = .ok ⟨true, [("ibias", ⟨3, 0⟩)], [("i1", ⟨6, 0⟩)], [("v1", ⟨6, 7⟩)], 1⟩ := by
  exact ⟨rfl, rfl, rfl⟩

/-- The DAC-sorting loop of `astropixRun.asic_init`: walk the given
`dac_setup` items; a key found in the `idacs` block replaces the whole
`idac_setup` dict by the singleton for that key, a key found in the `vdacs`
block likewise replaces `vdac_setup`, and an unknown key logs a warning and
returns from `asic_init` (`none`), applying nothing. -/
def sortDacsLoop : List (String × Nat) → List String → List String →
    Option (List (String × Nat)) → Option (List (String × Nat)) →
    Option (Option (List (String × Nat)) × Option (List (String × Nat)))
  | [], _, _, idS, vdS => some (idS, vdS)
  | kv :: rest, iKeys, vKeys, idS, vdS =>
      if kv.1 ∈ iKeys then sortDacsLoop rest iKeys vKeys (some [kv]) vdS
      else if kv.1 ∈ vKeys then sortDacsLoop rest iKeys vKeys idS (some [kv])
      else none

/-- The DAC sorting of `asic_init` starting from
`idac_setup, vdac_setup = None, None`. -/
def sortDacs (dac : List (String × Nat)) (iKeys vKeys : List String) :
    Option (Option (List (String × Nat)) × Option (List (String × Nat))) :=
  sortDacsLoop dac iKeys vKeys none none

/-- Key list of a block, as used by the `k in self.asic.asic_config[block]`
membership tests. -/
def blockKeys (blk : Block) : List String :=
  blk.map Prod.fst

/-- C8: evaluation at the failing input.  With two overrides that both name
current-DAC fields, the sorting loop keeps only the last one (each match
replaces the accumulated dict by a fresh singleton), so applying the result
leaves `i1` at its default — the claim that the value of every given key is
applied fails.  The abort half of the claim does hold: one unknown key
yields `none` and nothing is applied. -/
theorem sortDacs_drops_key :
    sortDacs [("i1", 5), ("i2", 7)]
        (blockKeys [("i1", ⟨6, 10⟩), ("i2", ⟨6, 20⟩)])
        (blockKeys [("v1", ⟨6, 30⟩)])
      = some (some [("i2", 7)], none) ∧
    applyOpt [("i1", ⟨6, 10⟩), ("i2", ⟨6, 20⟩)] (some [("i2", 7)])
      = some [("i1", ⟨6, 10⟩), ("i2", ⟨6, 7⟩)] ∧
    sortDacs [("i1", 5), ("bogus", 1)]
        (blockKeys [("i1", ⟨6, 10⟩), ("i2", ⟨6, 20⟩)])
        (blockKeys [("v1", ⟨6, 30⟩)])
      = none := by
  exact ⟨rfl, rfl, rfl⟩

/-- Modelled from the spec: the FPGA transport lives in `core/nexysio.py`,
which is not under `src/`; only its caller `astropixRun._test_io` is.  Per
the spec the transport exposes `write_register(addr, val, verify)`, which
writes `val` and, when `verify` is true, reads the register back and raises
when the byte read differs from the byte written.  The hardware link is
modelled by `readback addr val`: the byte the register returns after `val`
was written to `addr`. -/
structure NexysLink where
  readback : Nat → Nat → Nat

/-- Modelled from the spec: `write_register` with byte-for-byte verification
of the read-back value; a mismatch raises (`.error`). -/
def write_register (link : NexysLink) (addr val : Nat) (verify : Bool) :
    Except String Unit :=
  if verify ∧ link.readback addr val ≠ val then .error "readback mismatch"
  else .ok ()

/-- Embedding of `astropixRun._test_io`: write `0x55` to register `0x09`
with verification, read the register, reset the readout state; any exception
is caught and re-raised as the fatal `RuntimeError`, with no retry.  The
read-back and the two resets raise nothing in the model. -/
def test_io_check (link : NexysLink) : Except String Unit :=
  match write_register link 0x09 0x55 true with
  | .ok _ => .ok ()
  | .error _ => .error "Could not read or write from astropix!"

/-- C9: the startup self-test writes the known value `0x55` to register
`0x09` and verifies the read-back byte-for-byte; a matching link passes, and
any mismatch is detected and raises the fatal error in the single attempt
made per session — there is no retry path in `_test_io`. -/
theorem test_io_check_spec (link : NexysLink) :
    (link.readback 0x09 0x55 = 0x55 → test_io_check link = .ok ()) ∧
    (link.readback 0x09 0x55 ≠ 0x55 →
      test_io_check link = .error "Could not read or write from astropix!") := by
  constructor
  · intro h
    unfold test_io_check write_register
    rw [if_neg (fun hc => hc.2 h)]
  · intro h
    unfold test_io_check write_register
    rw [if_pos (And.intro rfl h)]

/-- A link that echoes every write faithfully. -/
def goodLink : NexysLink := ⟨fun _ val => val⟩

/-- A dead link that reads back 0 for every register. -/
def badLink : NexysLink := ⟨fun _ _ => 0⟩

/-- Witness for C9 on a faithful link and on a dead link. -/
theorem test_io_check_spec_witness :
    test_io_check goodLink = .ok () ∧
    test_io_check badLink = .error "Could not read or write from astropix!" :=
  ⟨(test_io_check_spec goodLink).1 rfl,
   (test_io_check_spec badLink).2 (by decide)⟩

end Astropix
